import Mathlib

/-!
Verification of the FastLink incremental remote media analysis engine.

This file gives a shallow embedding, in Lean 4, of the server-side core of
the repository (the MediaInfo WASM driver in `app/lib/logger.server.ts`,
the URL safety validator and Google-Drive rewrite in
`app/lib/server-utils.ts`, the metadata resolver in `app/lib/file-info.ts`
and the proxy route in `app/lib/logger.server.ts`), together with theorems
settling the behavioural claims stated about that code.

Conventions: JavaScript numbers appearing as byte offsets/sizes are
modelled as `Int` (all values reached in the modelled paths are integral);
JavaScript strings are modelled as `List Char` (written `Str`), so that
every definition evaluates inside the kernel; a thrown exception is
modelled with `Except`/`Option`.
-/

namespace FastLink

/-- JavaScript strings, modelled as character lists. -/
abbrev Str := List Char

/-- Model of `a.startsWith(b)` on strings. -/
def strStartsWith (s p : Str) : Bool :=
  match p, s with
  | [], _ => true
  | _, [] => false
  | a :: ps, b :: ss => a = b && strStartsWith ss ps

/-- Helper for `strSplitOnChar`: accumulates the current piece. -/
def splitOnCharAux (sep : Char) : Str → Str → List Str
  | [], acc => [acc.reverse]
  | c :: rest, acc =>
      if c = sep then acc.reverse :: splitOnCharAux sep rest []
      else splitOnCharAux sep rest (c :: acc)

/-- Model of JavaScript `s.split(sep)` for a single-character separator. -/
def strSplitOnChar (sep : Char) (s : Str) : List Str :=
  splitOnCharAux sep s []

/-! ### Seek-word decoding — `MediaInfo.openBufferContinueGotoGet`
    (app/lib/logger.server.ts, lines 320–335)

    The WASM core exposes the desired 64-bit seek target as two 32-bit
    words read through `open_buffer_continue_goto_get_lower/upper`.  The
    words arrive as JavaScript numbers holding signed 32-bit values. -/

/-- Constant `MAX_UINT32_PLUS_ONE = 2 ** 32` from the source. -/
def MAX_UINT32_PLUS_ONE : Int := 2 ^ 32

/-- Embedding of `openBufferContinueGotoGet`, parameterised by the two
    32-bit words returned by the WASM accessors.  Mirrors:
    `if (seekToLow === -1 && seekToHigh === -1) seekTo = -1;
     else if (seekToLow < 0) seekTo = seekToLow + 2^32 + seekToHigh * 2^32;
     else seekTo = seekToLow + seekToHigh * 2^32;` -/
def openBufferContinueGotoGet (seekToLow seekToHigh : Int) : Int :=
  if seekToLow = -1 ∧ seekToHigh = -1 then -1
  else if seekToLow < 0 then
    seekToLow + MAX_UINT32_PLUS_ONE + seekToHigh * MAX_UINT32_PLUS_ONE
  else
    seekToLow + seekToHigh * MAX_UINT32_PLUS_ONE

/-! ### URL safety validator — `validateUrl` (app/lib/server-utils.ts, 43–71) -/

/-- The `LOCALHOST_IPS` set from the source. -/
def LOCALHOST_IPS : List Str :=
  ["localhost".toList, "[::1]".toList, "::1".toList,
   "0.0.0.0".toList, "[::0]".toList, "::0".toList]

/-- The `META_DATA_HOSTS` set from the source. -/
def META_DATA_HOSTS : List Str :=
  ["metadata.google.internal".toList, "169.254.169.254".toList,
   "metadata.google".toList]

/-- Model of JavaScript `Number.parseInt(s, 10)`: skip leading
    whitespace, optional sign, then a run of decimal digits; `none`
    models the `NaN` result when no digit is found. -/
def jsParseInt (s : Str) : Option Int :=
  let cs := s.dropWhile (fun c => c = ' ' ∨ c = '\t' ∨ c = '\n' ∨ c = '\r')
  let signed : Bool × Str :=
    match cs with
    | '-' :: rest => (true, rest)
    | '+' :: rest => (false, rest)
    | _ => (false, cs)
  let digits := signed.2.takeWhile Char.isDigit
  if digits.isEmpty then none
  else
    let v : Int := digits.foldl (fun acc c => acc * 10 + ((c.toNat : Int) - ('0'.toNat : Int))) 0
    some (if signed.1 then -v else v)

/-- Model of `new URL(u).hostname` for plain `http://` / `https://` URLs
    without userinfo or port (the only forms the claims exercise): the
    substring between the `//` and the next `/`, `?`, `#` or `:`. -/
def urlHostname (u : Str) : Str :=
  let rest :=
    if strStartsWith u "https://".toList then u.drop 8
    else if strStartsWith u "http://".toList then u.drop 7
    else u
  rest.takeWhile (fun c => ¬ (c = '/' ∨ c = '?' ∨ c = '#' ∨ c = ':'))

/-- Embedding of `validateUrl`: returns `Except.error` with the thrown
    message where the source throws, `Except.ok ()` where it returns. -/
def validateUrl (url : Str) : Except Str Unit :=
  let host := urlHostname url
  if host = "localhost".toList ∨ strStartsWith host "127.".toList ∨
      LOCALHOST_IPS.contains host then
    .error "Invalid URL: Access to local resources is denied.".toList
  else if META_DATA_HOSTS.contains host then
    .error "Invalid URL: Access to metadata services is denied.".toList
  else if strStartsWith host "10.".toList ∨ strStartsWith host "192.168.".toList then
    .error "Invalid URL: Access to private resources is denied.".toList
  else if strStartsWith host "172.".toList then
    match jsParseInt ((strSplitOnChar '.' host).getD 1 []) with
    | some secondOctet =>
        if 16 ≤ secondOctet ∧ secondOctet ≤ 31 then
          .error "Invalid URL: Access to private resources is denied.".toList
        else .ok ()
    | none => .ok ()
  else .ok ()

/-! ### Google-Drive share-link rewrite — `resolveGoogleDriveUrl`
    (app/lib/server-utils.ts, lines 73–85)

    The source tests the URL against
    `/https:\/\/drive\.google\.com\/file\/d\/([-a-zA-Z0-9_]+)\/view/`
    with `exec` (leftmost match, no flags) and, on a match, rewrites to
    the direct-download endpoint; otherwise a URL containing
    `drive.usercontent.google.com` is passed through flagged as Drive.

    The regex is embedded exactly: an occurrence of the literal prefix
    `https://drive.google.com/file/d/`, a capture of one-or-more
    characters from `[-a-zA-Z0-9_]`, then the literal `/view`.  Because
    `/` is not in the character class, the greedy capture is forced to
    the maximal run, and `exec` succeeds at a position iff that maximal
    run is non-empty and followed by `/view`; `exec` scans positions
    left to right. -/

/-- Membership in the regex character class `[-a-zA-Z0-9_]`. -/
def driveIdChar (c : Char) : Bool :=
  c = '-' || c.isAlpha || c.isDigit || c = '_'

/-- The literal part of the regex before the capture group. -/
def drivePatternPre : Str := "https://drive.google.com/file/d/".toList

/-- The literal part of the regex after the capture group. -/
def drivePatternPost : Str := "/view".toList

/-- Fixed prefix of the rewritten direct-download URL. -/
def driveRewritePre : Str := "https://drive.usercontent.google.com/download?id=".toList

/-- Fixed suffix of the rewritten direct-download URL. -/
def driveRewritePost : Str := "&export=download&confirm=t".toList

/-- The needle of the source's `url.includes(...)` check. -/
def usercontentNeedle : Str := "drive.usercontent.google.com".toList

/-- Model of `s.includes(sub)`. -/
def strContainsSub : Str → Str → Bool
  | s, sub =>
    if strStartsWith s sub then true
    else
      match s with
      | [] => false
      | _ :: rest => strContainsSub rest sub

/-- Whole-regex match anchored at the start of `s`: the literal prefix,
    a non-empty maximal class run (the capture), then `/view`. -/
def matchDriveViewAt (s : Str) : Option Str :=
  if strStartsWith s drivePatternPre then
    if (s.drop drivePatternPre.length).takeWhile driveIdChar ≠ [] ∧
        strStartsWith ((s.drop drivePatternPre.length).dropWhile driveIdChar)
          drivePatternPost then
      some ((s.drop drivePatternPre.length).takeWhile driveIdChar)
    else none
  else none

/-- Model of `GOOGLE_DRIVE_REGEX.exec(url)?.[1]`: the capture of the
    leftmost match, scanning start positions left to right. -/
def execDriveViewRegex : Str → Option Str
  | [] => matchDriveViewAt []
  | a :: rest =>
    match matchDriveViewAt (a :: rest) with
    | some fileId => some fileId
    | none => execDriveViewRegex rest

/-- Result shape of `resolveGoogleDriveUrl`. -/
structure DriveResolution where
  url : Str
  isGoogleDrive : Bool
deriving DecidableEq

/-- Embedding of `resolveGoogleDriveUrl`. -/
def resolveGoogleDriveUrl (u : Str) : DriveResolution :=
  match execDriveViewRegex u with
  | some fileId =>
      ⟨driveRewritePre ++ fileId ++ driveRewritePost, true⟩
  | none =>
      if strContainsSub u usercontentNeedle then ⟨u, true⟩
      else ⟨u, false⟩

/-! ### The analysis feed loop — `MediaInfo.analyzeData`
    (app/lib/logger.server.ts, lines 164–272)

    The loop drives the WASM core: repeatedly compute
    `safeSize = Math.min(chunkSize, fileSize - offset)`, call
    `readChunk(safeSize, offset)`, submit the returned bytes with
    `openBufferContinue`, and either finalize (zero-length data, or the
    core sets bit `0x08`) or continue — advancing sequentially when the
    seek accessor decodes to `-1`, or re-initialising at the decoded
    seek target otherwise.

    The core is modelled as an oracle: a list of responses, one consumed
    per `openBufferContinue` call, each holding the raw return value of
    `open_buffer_continue` and the two seek words.  The chunk provider
    is modelled by the length of the `Uint8Array` it returns.  A run
    that exhausts the oracle is modelled as stopping there; theorems
    only examine runs that stay within their oracle. -/

/-- Response of the WASM core to one `open_buffer_continue` call:
    the raw bitmask returned, and the two 32-bit seek words that
    `openBufferContinueGotoGet` would read afterwards. -/
structure CoreResp where
  ret : Nat
  low : Int
  high : Int
deriving DecidableEq

/-- Embedding of `openBufferContinue`'s result test:
    `!!(open_buffer_continue(...) & 0x08)` — true means the core signals
    completion. -/
def openBufferContinueBitSet (ret : Nat) : Bool :=
  (ret &&& 8) != 0

/-- One run of the `runReadDataLoop` closure inside `analyzeData`,
    returning the list of `(size, offset)` arguments of the `readChunk`
    calls issued, in order.  `readChunk` gives the byte length of the
    data the provider returns for a given `(size, offset)` request.
    The source's locals `safeSize = Math.min(chunkSize, fileSize -
    offset)`, `data.length` and `seekTo` are inlined at their use
    sites. -/
def runReadDataLoop (chunkSize fileSize : Int) (readChunk : Int → Int → Nat) :
    List CoreResp → Int → List (Int × Int)
  | core, offset =>
    (min chunkSize (fileSize - offset), offset) ::
      (if readChunk (min chunkSize (fileSize - offset)) offset = 0 then []
       else
         match core with
         | [] => []
         | r :: rest =>
           if openBufferContinueBitSet r.ret then []
           else if openBufferContinueGotoGet r.low r.high = -1 then
             runReadDataLoop chunkSize fileSize readChunk rest
               (offset + (readChunk (min chunkSize (fileSize - offset)) offset : Int))
           else
             runReadDataLoop chunkSize fileSize readChunk rest
               (openBufferContinueGotoGet r.low r.high))

/-- The chunk-request trace of a full `analyzeData` run: `analyzeData`
    starts its loop at `offset = 0`. -/
def analyzeDataRequests (chunkSize fileSize : Int) (readChunk : Int → Int → Nat)
    (core : List CoreResp) : List (Int × Int) :=
  runReadDataLoop chunkSize fileSize readChunk core 0

/-- A provider that returns exactly the requested number of bytes
    (and an empty array for a non-positive request). -/
def exactProvider : Int → Int → Nat := fun size _ => size.toNat

/-- Core response that requests continuation with no seek: completion
    bit clear, both seek words `-1`. -/
def noSeekResp : CoreResp := ⟨0, -1, -1⟩

/-! ### Result normalisation — `MediaInfo.parseResultJson`
    (app/lib/logger.server.ts, lines 354–389)

    JavaScript values produced by `JSON.parse` (plus the `NaN` and
    `undefined` values the normaliser itself can introduce) are modelled
    by `JValue`; objects are association lists in property-insertion
    order.  The `INT_FIELDS` / `FLOAT_FIELDS` tables are imported from
    `MediaInfoResult.js`, which is not part of the provided sources, so
    they are parameters throughout. -/

inductive JValue where
  | jstr (s : Str)
  | jnum (q : ℚ)
  | jnan
  | jbool (b : Bool)
  | jnull
  | jundef
  | jarr (xs : List JValue)
  | jobj (fields : List (Str × JValue))

/-- Property lookup on an object's field list (first match, like a
    JavaScript object, whose keys are unique). -/
def jlookup : List (Str × JValue) → Str → Option JValue
  | [], _ => none
  | (k, v) :: rest, key => if k = key then some v else jlookup rest key

/-- The property name `"media"`. -/
def mediaKey : Str := "media".toList

/-- The property name `"track"`. -/
def trackKey : Str := "track".toList

/-- The property name `"@type"`. -/
def atTypeKey : Str := "@type".toList

/-- Parse a leading digit run: returns the accumulated value, the
    number of digits consumed and the remaining characters. -/
def parseDigitRun : Str → Nat → Nat → Nat × Nat × Str
  | [], v, n => (v, n, [])
  | c :: rest, v, n =>
      if c.isDigit then parseDigitRun rest (v * 10 + (c.toNat - '0'.toNat)) (n + 1)
      else (v, n, c :: rest)

/-- Model of JavaScript `Number.parseFloat` on plain decimal notation:
    skip leading whitespace, optional sign, integer digits, optional
    fraction, optional exponent; `none` models `NaN` (no digit in the
    mantissa).  The `Infinity` literal form is not modelled; no claim
    exercises it. -/
def jsParseFloat (s : Str) : Option ℚ :=
  let cs := s.dropWhile (fun c => c = ' ' ∨ c = '\t' ∨ c = '\n' ∨ c = '\r')
  let signed : Bool × Str :=
    match cs with
    | '-' :: rest => (true, rest)
    | '+' :: rest => (false, rest)
    | _ => (false, cs)
  let ipart := parseDigitRun signed.2 0 0
  let fpart : Nat × Nat × Str :=
    match ipart.2.2 with
    | '.' :: rest => parseDigitRun rest 0 0
    | other => (0, 0, other)
  if ipart.2.1 = 0 ∧ fpart.2.1 = 0 then none
  else
    let mantissa : ℚ := (ipart.1 : ℚ) + (fpart.1 : ℚ) / ((10 : ℚ) ^ fpart.2.1)
    let withExp : ℚ :=
      match fpart.2.2 with
      | 'e' :: rest => applyExponent mantissa rest
      | 'E' :: rest => applyExponent mantissa rest
      | _ => mantissa
    some (if signed.1 then -withExp else withExp)
where
  /-- Apply an exponent suffix if its digits are present; a dangling
      `e`/`e+`/`e-` is ignored, as `parseFloat` takes the longest valid
      numeric prefix. -/
  applyExponent (mantissa : ℚ) (rest : Str) : ℚ :=
    let esigned : Bool × Str :=
      match rest with
      | '-' :: r => (true, r)
      | '+' :: r => (false, r)
      | _ => (false, rest)
    let epart := parseDigitRun esigned.2 0 0
    if epart.2.1 = 0 then mantissa
    else if esigned.1 then mantissa / ((10 : ℚ) ^ epart.1)
    else mantissa * ((10 : ℚ) ^ epart.1)

/-- Truthiness of a JavaScript value (`!x` is `!jsTruthy x`). -/
def jsTruthy : JValue → Bool
  | .jstr s => ¬ s.isEmpty
  | .jnum q => q ≠ 0
  | .jnan => false
  | .jbool b => b
  | .jnull => false
  | .jundef => false
  | .jarr _ => true
  | .jobj _ => true

/-- Whether `typeof x === 'object'` (true for objects, arrays and
    `null`). -/
def jsTypeofObject : JValue → Bool
  | .jobj _ => true
  | .jarr _ => true
  | .jnull => true
  | _ => false

/-- Per-field conversion from the normaliser's loop body: a string
    value whose key is in the integer table becomes
    `Number.parseInt(val, 10)`, else if in the float table
    `Number.parseFloat(val)`; everything else passes through. -/
def normalizeValue (intF floatF : List Str) (key : Str) (v : JValue) : JValue :=
  match v with
  | .jstr s =>
      if intF.contains key then
        match jsParseInt s with
        | some z => .jnum (z : ℚ)
        | none => .jnan
      else if floatF.contains key then
        match jsParseFloat s with
        | some q => .jnum q
        | none => .jnan
      else .jstr s
  | other => other

/-- The `for (const [key, val] of Object.entries(track))` loop building
    `newTrack`'s fields after the initial `'@type'` assignment: each
    entry is appended in order, `'@type'` entries are skipped. -/
def buildNewTrack (intF floatF : List Str) : List (Str × JValue) → List (Str × JValue)
  | [] => []
  | (key, val) :: rest =>
      if key = atTypeKey then buildNewTrack intF floatF rest
      else (key, normalizeValue intF floatF key val) :: buildNewTrack intF floatF rest

/-- The track-mapping function inside `tracks.map(...)`: a fresh object
    starting with `'@type': track['@type']` followed by the loop's
    fields.  (Only object tracks are modelled structurally; for a
    non-object track the source's `Object.entries` yields nothing
    relevant and the result keeps just the `'@type'` slot.) -/
def normalizeTrack (intF floatF : List Str) : JValue → JValue
  | .jobj tfields =>
      .jobj ((atTypeKey, (jlookup tfields atTypeKey).getD .jundef)
        :: buildNewTrack intF floatF tfields)
  | _ => .jobj [(atTypeKey, .jundef)]

/-- Body of `parseResultJson` after `JSON.parse` succeeded: the shape
    checks `!result.media || typeof result.media !== 'object'` and
    `!Array.isArray(tracks)` return the parsed value unchanged; on the
    media/track shape, `track` is replaced inside `media` (object
    spread: the key keeps its position) and `media` inside the result. -/
def parseResultJsonValue (intF floatF : List Str) (result : JValue) : JValue :=
  match result with
  | .jobj rfields =>
      let media := (jlookup rfields mediaKey).getD .jundef
      if ¬ (jsTruthy media ∧ jsTypeofObject media) then result
      else
        match media with
        | .jobj mfields =>
            match jlookup mfields trackKey with
            | some (.jarr tracks) =>
                .jobj (rfields.map (fun kv =>
                  if kv.1 = mediaKey then
                    (kv.1, JValue.jobj (mfields.map (fun mv =>
                      if mv.1 = trackKey then
                        (mv.1, JValue.jarr (tracks.map (normalizeTrack intF floatF)))
                      else mv)))
                  else kv))
            | _ => result
        | _ => result
  | other => other

/-- Embedding of `parseResultJson(resultString)`: `none` models an
    input text on which `JSON.parse` throws (the exception propagates —
    the method has no handler); `some JValue.jnull` (text `"null"`)
    also throws, since `result.media` is a property access on `null`.
    Every other parsed value is normalised by `parseResultJsonValue`. -/
def parseResultJson (intF floatF : List Str) (parsed : Option JValue) :
    Except Unit JValue :=
  match parsed with
  | none => .error ()
  | some .jnull => .error ()
  | some result => .ok (parseResultJsonValue intF floatF result)

/-- Declarative form of the per-track normalisation, written from the
    claim's words: the `@type` field first with its original value, then
    every non-`@type` field in original order, integer-table fields
    parsed base-10, float-table fields parsed as floats, all others
    passed through verbatim. -/
def normalizeTrackSpec (intF floatF : List Str) (tfields : List (Str × JValue)) :
    List (Str × JValue) :=
  (atTypeKey, (jlookup tfields atTypeKey).getD .jundef) ::
    (tfields.filter (fun kv => kv.1 ≠ atTypeKey)).map
      (fun kv => (kv.1, normalizeValue intF floatF kv.1 kv.2))

/-- Shape test used by the error-handling claim: true when a parsed
    value would fail the source's media/track shape checks and be
    returned unchanged. -/
def lacksMediaTrackShape : JValue → Bool
  | .jobj rfields =>
      match (jlookup rfields mediaKey).getD .jundef with
      | .jobj mfields =>
          match jlookup mfields trackKey with
          | some (.jarr _) => false
          | _ => true
      | _ => true
  | _ => true

/-! ### Driver concurrency state — `MediaInfo.analyzeData` entry
    (app/lib/logger.server.ts, lines 164–214)

    Mutable per-instance state shared between overlapping `analyzeData`
    calls: the `isAnalyzing` flag and the WASM module instance (modelled
    by a generation counter that `reset()` bumps). -/

structure DriverState where
  isAnalyzing : Bool
  coreGen : Nat
deriving DecidableEq

/-- Embedding of the callback form of `analyzeData` up to its first
    suspension: if `isAnalyzing` is set, the call invokes the callback
    with a concurrency error and returns at once, touching nothing;
    otherwise it calls `reset()` (disposing the old core instance and
    creating a new one), sets `isAnalyzing`, and the asynchronous feed
    loop proceeds.  The returned `Option Str` is the error argument the
    callback receives synchronously (`none` when the run continues). -/
def analyzeDataCb (s : DriverState) : DriverState × Option Str :=
  if s.isAnalyzing then
    (s, some "cannot start a new analysis while another is in progress".toList)
  else
    ({ isAnalyzing := true, coreGen := s.coreGen + 1 }, none)

/-- Embedding of the promise form of `analyzeData` (no callback given):
    it wraps the callback form in a `resultCb` that first executes
    `this.isAnalyzing = false` and then resolves or rejects.  When the
    inner call rejects synchronously (the concurrent-analysis case),
    `resultCb` runs synchronously too, so the returned state has
    `isAnalyzing` forced to `false`. -/
def analyzeDataPromise (s : DriverState) : DriverState × Option Str :=
  match analyzeDataCb s with
  | (s₁, some e) => ({ s₁ with isAnalyzing := false }, some e)
  | (s₁, none) => (s₁, none)

/-! ### Network-call traces of the `/info` resolver and the `/p/` proxy
    (app/lib/file-info.ts 44–191, app/lib/logger.server.ts 488–590)

    For the SSRF claim what matters is which network calls each route
    issues against user-supplied URLs and whether `validateUrl` ever
    runs before them.  Each embedding records that event sequence. -/

inductive NetEvent where
  | validate (url : Str)
  | fetch (url : Str)
deriving DecidableEq

/-- Environment model for one probe response seen by `getFileInfo`:
    `ok` is `response.ok`, `finalUrl` is `response.url`, the strings are
    the relevant headers (`""` when absent), and `contentRangeTotal` is
    the total captured from a `Content-Range` header, if any. -/
structure ProbeResp where
  ok : Bool
  finalUrl : Str
  contentLength : Str
  contentType : Str
  contentRangeTotal : Option Str

/-- Network-event trace of `getFileInfo targetUrl` (app/lib/file-info.ts,
    lines 44–126: the three probe tiers; the filename/type post-processing
    issues no network calls).  `resp1`, `resp2`, `resp3` are the
    environment's responses to the first two fetches when they happen
    (`none` models a thrown transport error); the tier-3 response only
    affects the returned descriptor, never which fetches are issued, so
    it is not a parameter here.  The function mirrors the source's
    conditions for issuing each tier's fetch; no call to `validateUrl`
    appears anywhere in the source function, so no `.validate` event is
    ever emitted. -/
def getFileInfoNetTrace (targetUrl : Str)
    (resp1 resp2 : Option ProbeResp) : List NetEvent :=
  -- tier 1: HEAD targetUrl, redirect: follow
  let finalUrl := match resp1 with
    | some r => if r.finalUrl ≠ [] then r.finalUrl else targetUrl
    | none => targetUrl
  let cl₁ : Str := match resp1 with
    | some r =>
        if r.ok then
          (if r.contentLength ≠ [] then r.contentLength
           else match r.contentRangeTotal with
             | some t => t
             | none => [])
        else []
    | none => []
  let ct₁ : Str := match resp1 with
    | some r => if r.ok then r.contentType else []
    | none => []
  -- tier 2: HEAD finalUrl, only if finalUrl differs and length or type missing
  let tier2 := finalUrl ≠ targetUrl ∧ (cl₁ = [] ∨ ct₁ = [])
  let cl₂ : Str :=
    if tier2 then
      match resp2 with
      | some r =>
          if r.ok then
            (if cl₁ ≠ [] then cl₁
             else if r.contentLength ≠ [] then r.contentLength
             else match r.contentRangeTotal with
               | some t => t
               | none => [])
          else cl₁
      | none => cl₁
    else cl₁
  let ct₂ : Str :=
    if tier2 then
      match resp2 with
      | some r => if r.ok then (if ct₁ ≠ [] then ct₁ else r.contentType) else ct₁
      | none => ct₁
    else ct₁
  -- tier 3: ranged GET, only if length or type still missing
  let tier3 := cl₂ = [] ∨ ct₂ = []
  NetEvent.fetch targetUrl ::
    ((if tier2 then [NetEvent.fetch finalUrl] else []) ++
     (if tier3 then [NetEvent.fetch (if finalUrl ≠ [] then finalUrl else targetUrl)] else []))

/-- Network-event trace of `handleProxyRoute` (app/lib/logger.server.ts,
    lines 488–590) for a non-`OPTIONS` request.  `decodedTarget` is the
    result of `atob(decodeURIComponent(parts[1]))` when it decodes and
    parses as a URL (`none` models a decode/parse failure, answered with
    a 400 and no network call).  On success the route fetches the
    decoded target directly; the source contains no `validateUrl` call,
    so no `.validate` event is ever emitted. -/
def handleProxyRouteNetTrace (decodedTarget : Option Str) : List NetEvent :=
  match decodedTarget with
  | none => []
  | some target => [NetEvent.fetch target]

/-! ### Content-Disposition construction — `handleProxyRoute`
    (app/lib/logger.server.ts, lines 545–553)

    The route builds
    `` `${disposition}; filename="${filename.replace(/"/g, '\\"')}"; filename*=UTF-8''${encodeURIComponent(filename)}` ``
    with `disposition = range ? 'inline' : 'attachment'` where `range`
    is `request.headers.get('range')`.

    `encodeURIComponent` is a platform builtin: characters outside
    `A–Z a–z 0–9 - _ . ! ~ * ' ( )` are replaced by the `%XX` upper-case
    hex escapes of their UTF-8 bytes.  It is modelled here byte-exactly,
    over a UTF-8 codec on Unicode scalar values (`Char`). -/

/-- UTF-8 encoding of one Unicode scalar value, as byte values. -/
def utf8EncodeChar (c : Char) : List Nat :=
  if c.toNat < 0x80 then [c.toNat]
  else if c.toNat < 0x800 then [0xC0 + c.toNat / 64, 0x80 + c.toNat % 64]
  else if c.toNat < 0x10000 then
    [0xE0 + c.toNat / 4096, 0x80 + (c.toNat / 64) % 64, 0x80 + c.toNat % 64]
  else
    [0xF0 + c.toNat / 262144, 0x80 + (c.toNat / 4096) % 64,
     0x80 + (c.toNat / 64) % 64, 0x80 + c.toNat % 64]

/-- UTF-8 decoding of a byte sequence into scalar values; `none` on a
    malformed sequence. -/
def utf8Decode : List Nat → Option Str
  | [] => some []
  | b :: rest =>
    if b < 0x80 then (fun s => Char.ofNat b :: s) <$> utf8Decode rest
    else if b < 0xC0 then none
    else if b < 0xE0 then
      match rest with
      | b2 :: rest2 =>
          if 0x80 ≤ b2 ∧ b2 < 0xC0 then
            (fun s => Char.ofNat ((b - 0xC0) * 64 + (b2 - 0x80)) :: s) <$>
              utf8Decode rest2
          else none
      | [] => none
    else if b < 0xF0 then
      match rest with
      | b2 :: b3 :: rest3 =>
          if (0x80 ≤ b2 ∧ b2 < 0xC0) ∧ (0x80 ≤ b3 ∧ b3 < 0xC0) then
            (fun s => Char.ofNat ((b - 0xE0) * 4096 + (b2 - 0x80) * 64 +
              (b3 - 0x80)) :: s) <$> utf8Decode rest3
          else none
      | _ => none
    else if b < 0xF8 then
      match rest with
      | b2 :: b3 :: b4 :: rest4 =>
          if (0x80 ≤ b2 ∧ b2 < 0xC0) ∧ (0x80 ≤ b3 ∧ b3 < 0xC0) ∧
              (0x80 ≤ b4 ∧ b4 < 0xC0) then
            (fun s => Char.ofNat ((b - 0xF0) * 262144 + (b2 - 0x80) * 4096 +
              (b3 - 0x80) * 64 + (b4 - 0x80)) :: s) <$> utf8Decode rest4
          else none
      | _ => none
    else none

/-- Characters `encodeURIComponent` leaves unescaped, by code point:
    `A–Z`, `a–z`, `0–9` and `- _ . ! ~ * ' ( )`. -/
def uriUnreserved (c : Char) : Bool :=
  (65 ≤ c.toNat ∧ c.toNat ≤ 90) ∨ (97 ≤ c.toNat ∧ c.toNat ≤ 122) ∨
    (48 ≤ c.toNat ∧ c.toNat ≤ 57) ∨
    c.toNat = 45 ∨ c.toNat = 95 ∨ c.toNat = 46 ∨ c.toNat = 33 ∨
    c.toNat = 126 ∨ c.toNat = 42 ∨ c.toNat = 39 ∨ c.toNat = 40 ∨ c.toNat = 41

/-- Upper-case hex digit for a value below 16. -/
def hexDigitChar (n : Nat) : Char :=
  ("0123456789ABCDEF".toList.getD n '0')

/-- The `%XX` escape of one byte. -/
def pctEscapeByte (b : Nat) : Str :=
  ['%', hexDigitChar (b / 16), hexDigitChar (b % 16)]

/-- Model of the `encodeURIComponent` builtin. -/
def encodeURIComponent : Str → Str
  | [] => []
  | c :: rest =>
    (if uriUnreserved c then [c] else (utf8EncodeChar c).flatMap pctEscapeByte)
      ++ encodeURIComponent rest

/-- Model of `filename.replace(/"/g, '\\"')`. -/
def escapeQuotes : Str → Str
  | [] => []
  | c :: rest =>
      if c = '"' then '\\' :: '"' :: escapeQuotes rest
      else c :: escapeQuotes rest

/-- Truthiness of `request.headers.get('range')` (`null` and the empty
    string are falsy). -/
def jsTruthyOptStr : Option Str → Bool
  | none => false
  | some s => ¬ s.isEmpty

/-- The `Content-Disposition` value set by `handleProxyRoute`, built
    exactly from the source's template literal. -/
def contentDispositionHeader (range : Option Str) (filename : Str) : Str :=
  (if jsTruthyOptStr range then "inline".toList else "attachment".toList) ++
    "; filename=\"".toList ++ escapeQuotes filename ++
    "\"; filename*=UTF-8''".toList ++ encodeURIComponent filename

/-! Modelled from the spec: a conforming RFC 6266 parser for the
    generated header.  The repository contains no such parser (the
    claim quantifies over external conforming consumers), so it is
    modelled from the RFC's rules the spec invokes: parameters are
    separated by `;` outside double-quoted strings (with `\x`
    quoted-pairs inside them); when a `filename*` parameter is present
    its RFC 5987 ext-value (`UTF-8''` followed by percent-encoded
    bytes) is preferred over the plain `filename` parameter; the bytes
    are percent-decoded and UTF-8-decoded. -/

/-- Value of one hex digit (either case); `none` for a non-hex char. -/
def hexVal (c : Char) : Option Nat :=
  if 48 ≤ c.toNat ∧ c.toNat ≤ 57 then some (c.toNat - 48)
  else if 65 ≤ c.toNat ∧ c.toNat ≤ 70 then some (c.toNat - 55)
  else if 97 ≤ c.toNat ∧ c.toNat ≤ 102 then some (c.toNat - 87)
  else none

/-- Percent-decode an ext-value's characters into bytes: `%XX` becomes
    one byte, a plain ASCII character stands for its own code; `none`
    on a bad escape or a non-ASCII raw character. -/
def pctDecodeBytes : Str → Option (List Nat)
  | [] => some []
  | c :: rest =>
    if c = '%' then
      match rest with
      | h1 :: h2 :: rest2 =>
          match hexVal h1, hexVal h2 with
          | some a, some b =>
              (fun bs => (16 * a + b) :: bs) <$> pctDecodeBytes rest2
          | _, _ => none
      | _ => none
    else if c.toNat < 128 then (fun bs => c.toNat :: bs) <$> pctDecodeBytes rest
    else none

/-- Split a header value at the `;` separators that lie outside
    double-quoted strings; inside a quoted string `\x` quoted-pairs are
    consumed as a unit.  `q` is the in-quotes state, `acc` the current
    segment reversed. -/
def splitParamsAux : Str → Bool → Str → List Str
  | [], _, acc => [acc.reverse]
  | c :: rest, q, acc =>
    if q then
      if c = '\\' then
        match rest with
        | [] => [(c :: acc).reverse]
        | c2 :: rest2 => splitParamsAux rest2 true (c2 :: c :: acc)
      else if c = '"' then splitParamsAux rest false (c :: acc)
      else splitParamsAux rest true (c :: acc)
    else
      if c = ';' then acc.reverse :: splitParamsAux rest false []
      else if c = '"' then splitParamsAux rest true (c :: acc)
      else splitParamsAux rest false (c :: acc)

/-- The parameter segments of a header value. -/
def splitParams (s : Str) : List Str :=
  splitParamsAux s false []

/-- The value of the first `filename*=` parameter, if any. -/
def findExtParam : List Str → Option Str
  | [] => none
  | p :: rest =>
      if strStartsWith (p.dropWhile (fun c => c = ' ')) "filename*=".toList then
        some ((p.dropWhile (fun c => c = ' ')).drop 10)
      else findExtParam rest

/-- The filename a conforming RFC 6266 parser extracts from a header
    carrying a `filename*` parameter: the preferred ext-value, decoded
    per RFC 5987. -/
def rfc6266PreferredFilename (header : Str) : Option Str :=
  match findExtParam (splitParams header) with
  | some v =>
      if strStartsWith v "UTF-8''".toList then
        match pctDecodeBytes (v.drop 7) with
        | some bs => utf8Decode bs
        | none => none
      else none
  | none => none

end FastLink

namespace FastLink

/-! ### Theorems for claim C4 -/

/-- C4: `validateUrl` rejects (throws for) `http://localhost/x`,
    `http://127.0.0.1/x`, `http://169.254.169.254/`, `http://10.0.0.5/`
    and `http://172.20.0.1/`, and accepts (returns normally for)
    `http://172.15.0.1/` and `http://8.8.8.8/file.mp4`. -/
theorem validateUrl_blocklist_cases :
    (validateUrl "http://localhost/x".toList).isOk = false ∧
    (validateUrl "http://127.0.0.1/x".toList).isOk = false ∧
    (validateUrl "http://169.254.169.254/".toList).isOk = false ∧
    (validateUrl "http://10.0.0.5/".toList).isOk = false ∧
    (validateUrl "http://172.20.0.1/".toList).isOk = false ∧
    (validateUrl "http://172.15.0.1/".toList).isOk = true ∧
    (validateUrl "http://8.8.8.8/file.mp4".toList).isOk = true := by
  decide

/-! ### Theorems for claim C1 -/

/-- Counterexample for C1 as stated: the claim's parenthetical says the
    run finalizes when the seek words decode to the no-seek sentinel.
    In the code, a `(-1, -1)` word pair (sentinel) makes the driver
    advance `offset` by the submitted byte count and keep feeding: in a
    run with `fileSize = 8`, `chunkSize = 4` whose first core response
    carries words `(-1, -1)`, two further chunk requests are issued
    after the first — the trace has three requests, not one. -/
theorem analyzeData_sentinel_does_not_finalize :
    openBufferContinueGotoGet (-1) (-1) = -1 ∧
    analyzeDataRequests 4 8 exactProvider [noSeekResp, noSeekResp] =
      [(4, 0), (4, 4), (0, 8)] ∧
    ¬ (analyzeDataRequests 4 8 exactProvider [noSeekResp, noSeekResp]).length = 1 := by
  decide

/-- C1 (amended): for 32-bit seek words, the decode returns the `-1`
    sentinel exactly when both words are `-1` (whereupon the driver
    advances sequentially and continues feeding — it does not finalize);
    otherwise it returns `low + 2^32 + high * 2^32` when `low` is
    negative and `low + high * 2^32` when `low` is non-negative; in
    particular `(5000, 0)` decodes to `5000` and `(-12, 1)` to
    `(-12 + 2^32) + 1 * 2^32`.  The last conjunct exhibits the
    advance-and-continue behaviour on a concrete sentinel run. -/
theorem openBufferContinueGotoGet_decode (low high : Int)
    (hl₁ : -2 ^ 31 ≤ low) (hl₂ : low < 2 ^ 31)
    (hh₁ : -2 ^ 31 ≤ high) (hh₂ : high < 2 ^ 31) :
    (openBufferContinueGotoGet low high = -1 ↔ low = -1 ∧ high = -1) ∧
    (low < 0 → ¬(low = -1 ∧ high = -1) →
      openBufferContinueGotoGet low high = low + 2 ^ 32 + high * 2 ^ 32) ∧
    (0 ≤ low → openBufferContinueGotoGet low high = low + high * 2 ^ 32) ∧
    openBufferContinueGotoGet 5000 0 = 5000 ∧
    openBufferContinueGotoGet (-12) 1 = (-12 + 2 ^ 32) + 1 * 2 ^ 32 ∧
    analyzeDataRequests 4 8 exactProvider [noSeekResp, noSeekResp] =
      [(4, 0), (4, 4), (0, 8)] := by
  refine ⟨?_, ?_, ?_, by decide, by decide, by decide⟩ <;>
    · unfold openBufferContinueGotoGet MAX_UINT32_PLUS_ONE
      split_ifs <;> omega

/-- Witness for `openBufferContinueGotoGet_decode`: instantiation at the
    concrete word pairs `(-1, -1)` and `(-12, 1)`. -/
theorem openBufferContinueGotoGet_decode_witness :
    (openBufferContinueGotoGet (-1) (-1) = -1 ↔
      (-1 : Int) = -1 ∧ (-1 : Int) = -1) ∧
    openBufferContinueGotoGet (-12) 1 = -12 + 2 ^ 32 + 1 * 2 ^ 32 :=
  ⟨(openBufferContinueGotoGet_decode (-1) (-1) (by norm_num) (by norm_num)
      (by norm_num) (by norm_num)).1,
   (openBufferContinueGotoGet_decode (-12) 1 (by norm_num) (by norm_num)
      (by norm_num) (by norm_num)).2.1 (by norm_num) (by norm_num)⟩

/-! ### Theorems for claim C5 -/

/-- C5 code-bug exhibit: with an analysis in flight (`isAnalyzing` set),
    the callback form of `analyzeData` rejects immediately with the
    concurrency error and leaves the driver state unchanged, but the
    promise form — while also rejecting immediately — resets the
    in-flight run's `isAnalyzing` flag to `false` (its `resultCb` runs
    `this.isAnalyzing = false` before rejecting), changing the in-flight
    run's state contrary to the claim. -/
theorem analyzeData_concurrent_rejection :
    analyzeDataCb ⟨true, 7⟩ =
      (⟨true, 7⟩,
       some "cannot start a new analysis while another is in progress".toList) ∧
    analyzeDataPromise ⟨true, 7⟩ =
      (⟨false, 7⟩,
       some "cannot start a new analysis while another is in progress".toList) := by
  decide

/-! ### Theorems for claim C2 -/

/-- C2 code-bug exhibit: the `/p/` proxy route's full network trace on
    the decoded target `http://169.254.169.254/` (the cloud metadata
    address) is a single direct fetch of that URL with no `validate`
    event — even though `validateUrl` itself would reject the URL — and
    `getFileInfo`'s network trace on the same user URL likewise consists
    of unvalidated fetches only. -/
theorem proxy_and_info_fetch_without_validation :
    handleProxyRouteNetTrace (some "http://169.254.169.254/".toList) =
      [NetEvent.fetch "http://169.254.169.254/".toList] ∧
    (validateUrl "http://169.254.169.254/".toList).isOk = false ∧
    getFileInfoNetTrace "http://169.254.169.254/".toList none none =
      [NetEvent.fetch "http://169.254.169.254/".toList,
       NetEvent.fetch "http://169.254.169.254/".toList] := by
  decide

/-! ### Theorems for claim C3 -/

/-- Ceiling-division step: removing one chunk of size `min c m` from a
    non-empty remainder `m` lowers `⌈m / c⌉ = (m + c - 1) / c` by one. -/
lemma ceilDiv_chunk_step (c m : Nat) (hc : 0 < c) (hm : 0 < m) :
    (m + c - 1) / c = ((m - min c m) + c - 1) / c + 1 := by
  rcases le_or_lt m c with h | h
  · rw [min_eq_right h, Nat.sub_self]
    have h1 : (m + c - 1) / c = 1 :=
      Nat.div_eq_of_lt_le (by omega) (by omega)
    have h2 : (0 + c - 1) / c = 0 := Nat.div_eq_of_lt (by omega)
    rw [h1, h2]
  · rw [min_eq_left h.le]
    have hrw : m + c - 1 = (m - c + c - 1) + c := by omega
    rw [hrw, Nat.add_div_right _ hc]

/-- Evaluation lemma: when the provider returns zero bytes for the
    current request, the loop stops after that single request. -/
lemma runReadDataLoop_stop (c n : Int) (p : Int → Int → Nat)
    (core : List CoreResp) (off : Int)
    (h : p (min c (n - off)) off = 0) :
    runReadDataLoop c n p core off = [(min c (n - off), off)] := by
  rw [runReadDataLoop.eq_def]
  simp [h]

/-- Evaluation lemma: when the provider returns data and the next core
    response has the completion bit clear and seek words decoding to the
    sentinel, the loop records the request and continues at
    `off + dataLen`. -/
lemma runReadDataLoop_advance (c n : Int) (p : Int → Int → Nat)
    (r : CoreResp) (rest : List CoreResp) (off : Int)
    (hlen : p (min c (n - off)) off ≠ 0)
    (hbit : openBufferContinueBitSet r.ret = false)
    (hgoto : openBufferContinueGotoGet r.low r.high = -1) :
    runReadDataLoop c n p (r :: rest) off =
      (min c (n - off), off) ::
        runReadDataLoop c n p rest (off + (p (min c (n - off)) off : Int)) := by
  rw [runReadDataLoop.eq_def]
  simp [hlen, hbit, hgoto]

/-- Counting lemma for the feed loop: starting at `off ≤ n` with a
    provider returning exactly the requested bytes and a core that only
    ever answers "continue, no seek", the loop issues
    `(n - off + c - 1) / c + 1` chunk requests (the final one asking for
    zero bytes), provided the oracle holds enough responses. -/
lemma runReadDataLoop_advance_count (c n : Nat) (hc : 0 < c) :
    ∀ (k off : Nat), off ≤ n → ((n - off) + c - 1) / c ≤ k →
      (runReadDataLoop (c : Int) (n : Int) exactProvider
        (List.replicate k noSeekResp) (off : Int)).length
        = ((n - off) + c - 1) / c + 1 := by
  intro k
  induction k with
  | zero =>
      intro off hoff hk
      have hoffn : off = n := by
        rcases Nat.lt_or_ge off n with h | h
        · exfalso
          have hpos : 0 < ((n - off) + c - 1) / c :=
            Nat.div_pos (by omega) hc
          exact absurd (Nat.le_zero.mp hk ▸ hpos) (lt_irrefl 0)
        · omega
      subst hoffn
      rw [runReadDataLoop_stop _ _ _ _ _ (by simp [exactProvider])]
      have h2 : (off - off + c - 1) / c = 0 := Nat.div_eq_of_lt (by omega)
      rw [List.length_singleton, h2]
  | succ k ih =>
      intro off hoff hk
      rcases Nat.eq_or_lt_of_le hoff with hoffn | hofflt
      · subst hoffn
        rw [runReadDataLoop_stop _ _ _ _ _ (by simp [exactProvider])]
        have h2 : (off - off + c - 1) / c = 0 := Nat.div_eq_of_lt (by omega)
        rw [List.length_singleton, h2]
      · set m := n - off with hm
        have hmpos : 0 < m := by omega
        have hlenNat : exactProvider (min (c : Int) ((n : Int) - (off : Int)))
            (off : Int) = min c m := by
          simp only [exactProvider]
          omega
        rw [List.replicate_succ,
          runReadDataLoop_advance _ _ _ _ _ _ (by rw [hlenNat]; omega)
            (by decide) (by decide),
          List.length_cons, hlenNat]
        have hcast2 : (off : Int) + ((min c m : Nat) : Int)
            = ((off + min c m : Nat) : Int) := by push_cast; ring
        have hstep := ceilDiv_chunk_step c m hc hmpos
        have hoff2 : off + min c m ≤ n := by
          have hmm : min c m ≤ m := min_le_right _ _
          omega
        have hrem : n - (off + min c m) = m - min c m := by omega
        have ihk : ((n - (off + min c m)) + c - 1) / c ≤ k := by
          rw [hrem]
          have hk2 := hk
          rw [hstep] at hk2
          exact Nat.le_of_succ_le_succ hk2
        rw [hcast2, ih (off + min c m) hoff2 ihk, hrem, hstep]

/-- Counterexample for C3 as stated: with `totalSize = 1`,
    `chunkSize = 1`, a provider returning exactly the requested bytes
    and a core that never seeks and never signals early completion, the
    run invokes the chunk-read callback twice — the trace is
    `[(1, 0), (0, 1)]` — whereas `⌈1 / 1⌉ = 1`. -/
theorem analyzeData_chunk_count_counterexample :
    analyzeDataRequests 1 1 exactProvider (List.replicate 2 noSeekResp)
      = [(1, 0), (0, 1)] ∧
    ¬ (analyzeDataRequests 1 1 exactProvider
        (List.replicate 2 noSeekResp)).length = (1 + 1 - 1) / 1 := by
  decide

/-- C3 (amended): for every `totalSize = n ≥ 0` and `chunkSize = c > 0`,
    a feed-loop run in which the core never requests a seek and never
    signals early completion, and whose provider returns exactly the
    requested bytes, terminates after invoking the chunk-read callback
    exactly `⌈n / c⌉ + 1 = (n + c - 1) / c + 1` times — the final
    invocation requests zero bytes and detects exhaustion.  `k` bounds
    the modelled core-oracle length. -/
theorem analyzeData_chunk_count (n c k : Nat) (hc : 0 < c)
    (hk : (n + c - 1) / c ≤ k) :
    (analyzeDataRequests (c : Int) (n : Int) exactProvider
      (List.replicate k noSeekResp)).length = (n + c - 1) / c + 1 := by
  have h := runReadDataLoop_advance_count c n hc k 0 (Nat.zero_le n)
    (by simpa using hk)
  simpa [analyzeDataRequests] using h

/-- Witness for `analyzeData_chunk_count`: at `n = 10`, `c = 4`, `k = 3`
    the run makes `⌈10 / 4⌉ + 1 = 4` chunk requests. -/
theorem analyzeData_chunk_count_witness :
    0 < 4 ∧ (10 + 4 - 1) / 4 ≤ 3 ∧
    (analyzeDataRequests (4 : Nat) (10 : Nat) exactProvider
      (List.replicate 3 noSeekResp)).length = (10 + 4 - 1) / 4 + 1 :=
  ⟨by decide, by decide, analyzeData_chunk_count 10 4 3 (by decide) (by decide)⟩

/-! ### Theorems for claim C6 -/

/-- Bound lemma for the feed loop: every request `(size, offset)` it
    issues satisfies `size + offset ≤ fileSize`, whatever the provider
    returns and however the core seeks. -/
lemma runReadDataLoop_request_bound (c n : Int) (p : Int → Int → Nat) :
    ∀ (core : List CoreResp) (off : Int) r,
      r ∈ runReadDataLoop c n p core off → r.1 + r.2 ≤ n := by
  intro core
  induction core with
  | nil =>
      intro off r hr
      rw [runReadDataLoop] at hr
      have hhead : r = (min c (n - off), off) := by
        rcases List.mem_cons.mp hr with h | h
        · exact h
        · split at h <;> simp at h
      subst hhead
      have := min_le_right c (n - off)
      simp only
      omega
  | cons resp rest ih =>
      intro off r hr
      rw [runReadDataLoop] at hr
      rcases List.mem_cons.mp hr with h | h
      · subst h
        have := min_le_right c (n - off)
        simp only
        omega
      · split at h
        · simp at h
        · split at h
          · simp at h
          · split at h
            · exact ih _ r h
            · exact ih _ r h

/-- C6: in every run of `analyzeData` with a known `totalSize = n`, every
    chunk-read request issued satisfies `offset + size ≤ n` (the
    requested size being `min(chunkSize, n − currentOffset)`), for every
    chunk size, provider behaviour and core behaviour — including seeks
    to arbitrary offsets. -/
theorem analyzeData_request_bound (c n : Int) (p : Int → Int → Nat)
    (core : List CoreResp) :
    ∀ r ∈ analyzeDataRequests c n p core, r.2 + r.1 ≤ n := by
  intro r hr
  have := runReadDataLoop_request_bound c n p core 0 r hr
  omega

/-- Witness for `analyzeData_request_bound`: the first request of a
    concrete run with a seek to offset `6` respects the bound. -/
theorem analyzeData_request_bound_witness :
    ((4 : Int), (0 : Int)) ∈
      analyzeDataRequests 4 8 exactProvider [⟨0, 6, 0⟩] ∧
    (0 : Int) + 4 ≤ 8 :=
  ⟨by decide,
   analyzeData_request_bound 4 8 exactProvider [⟨0, 6, 0⟩] (4, 0) (by decide)⟩

/-! ### Theorems for claim C7 -/

/-- The imperative `newTrack` loop equals its declarative form:
    non-`@type` fields in order, each value normalised by key. -/
lemma buildNewTrack_eq (intF floatF : List Str) (t : List (Str × JValue)) :
    buildNewTrack intF floatF t =
      (t.filter (fun kv => kv.1 ≠ atTypeKey)).map
        (fun kv => (kv.1, normalizeValue intF floatF kv.1 kv.2)) := by
  induction t with
  | nil => rfl
  | cons kv rest ih =>
      obtain ⟨key, val⟩ := kv
      by_cases hk : key = atTypeKey
      · simp [buildNewTrack, hk, ih]
      · simp [buildNewTrack, hk, ih]

/-- The code's track mapper agrees with the claim's declarative
    normalisation on object tracks. -/
lemma normalizeTrack_jobj (intF floatF : List Str) (t : List (Str × JValue)) :
    normalizeTrack intF floatF (.jobj t) =
      .jobj (normalizeTrackSpec intF floatF t) := by
  simp [normalizeTrack, normalizeTrackSpec, buildNewTrack_eq]

/-- A keyed replacement map leaves an association list without that key
    unchanged. -/
lemma map_replace_of_not_mem (key : Str) (G : Str × JValue → Str × JValue)
    (l : List (Str × JValue)) (h : ∀ kv ∈ l, kv.1 ≠ key) :
    l.map (fun kv => if kv.1 = key then G kv else kv) = l := by
  induction l with
  | nil => rfl
  | cons kv rest ih =>
      have h1 : kv.1 ≠ key := h kv (List.mem_cons_self kv rest)
      simp [h1, ih (fun x hx => h x (List.mem_cons_of_mem kv hx))]

/-- C7: on every parsed result of media/track shape (a `media` object
    whose `track` entry is an array of objects, with arbitrary further
    fields beside `media` and `track`), the normaliser rewrites exactly
    the track array — each track becomes its `@type` field followed by
    the remaining fields in order, integer-table string fields parsed
    base-10, float-table string fields parsed as floats, all other
    fields verbatim — and in particular
    `{"media":{"track":[{"@type":"Video","Width":"1920","FrameRate":"29.970"}]}}`
    with `Width` integer-classified and `FrameRate` float-classified
    normalises to `Width = 1920` and `FrameRate = 29.97`. -/
theorem parseResultJson_normalizes (intF floatF : List Str)
    (tracks : List (List (Str × JValue)))
    (mrest rrest : List (Str × JValue))
    (hm : ∀ kv ∈ mrest, kv.1 ≠ trackKey)
    (hr : ∀ kv ∈ rrest, kv.1 ≠ mediaKey) :
    (parseResultJson intF floatF
      (some (.jobj ((mediaKey,
          .jobj ((trackKey, .jarr (tracks.map .jobj)) :: mrest)) :: rrest)))
      = .ok (.jobj ((mediaKey,
          .jobj ((trackKey,
              .jarr (tracks.map (fun t =>
                JValue.jobj (normalizeTrackSpec intF floatF t))))
            :: mrest)) :: rrest))) ∧
    parseResultJson ["Width".toList] ["FrameRate".toList]
      (some (.jobj [(mediaKey, .jobj [(trackKey, .jarr [.jobj
          [(atTypeKey, .jstr "Video".toList),
           ("Width".toList, .jstr "1920".toList),
           ("FrameRate".toList, .jstr "29.970".toList)]])])]))
      = .ok (.jobj [(mediaKey, .jobj [(trackKey, .jarr [.jobj
          [(atTypeKey, .jstr "Video".toList),
           ("Width".toList, .jnum 1920),
           ("FrameRate".toList, .jnum (2997 / 100))]])])]) := by
  constructor
  · simp only [parseResultJson, parseResultJsonValue, jlookup, eq_self_iff_true,
      if_true, Option.getD_some, jsTruthy, jsTypeofObject, and_self,
      not_true_eq_false, Bool.false_eq_true, if_false, List.map_cons,
      List.map_map, Except.ok.injEq]
    rw [map_replace_of_not_mem _ _ _ hm, map_replace_of_not_mem _ _ _ hr]
    simp only [Function.comp_def, normalizeTrack_jobj]
  · show Except.ok (parseResultJsonValue _ _ _) = _
    have h1 : jsParseInt ['1', '9', '2', '0'] = some 1920 := rfl
    have h2 : jsParseFloat ['2', '9', '.', '9', '7', '0'] = some (2997 / 100) := by
      simp [jsParseFloat, parseDigitRun]
      norm_num
    simp [parseResultJsonValue, jlookup, jsTruthy, jsTypeofObject, normalizeTrack,
      buildNewTrack, normalizeValue, h1, h2, mediaKey, trackKey, atTypeKey]

/-- Witness for `parseResultJson_normalizes`: instantiation with one
    track and no extra fields. -/
theorem parseResultJson_normalizes_witness :
    parseResultJson [] []
      (some (.jobj [(mediaKey,
          .jobj [(trackKey, .jarr [.jobj []])])]))
      = .ok (.jobj [(mediaKey,
          .jobj [(trackKey,
              .jarr [.jobj (normalizeTrackSpec [] [] [])])])]) :=
  (parseResultJson_normalizes [] [] [[]] [] []
    (fun _ hx => absurd hx (List.not_mem_nil _))
    (fun _ hx => absurd hx (List.not_mem_nil _))).1

/-! ### Theorems for claim C8 -/

/-- Counterexample for C8 as stated: given the well-formed input text
    `[1]`, which lacks the media/track shape, the normaliser does not
    fail with any error — it returns the parsed value unchanged — so
    "fails with `MalformedResultError`" is false; and given text that is
    not well-formed (the parse throws, modelled by `none`), no value is
    returned to the caller at all, so "the original parsed value is
    returned unchanged" is false there. -/
theorem parseResultJson_error_counterexample :
    parseResultJson [] [] (some (.jarr [.jnum 1])) = .ok (.jarr [.jnum 1]) ∧
    parseResultJson [] [] none = .error () :=
  ⟨rfl, rfl⟩

/-- Shape-lacking parsed values pass through `parseResultJsonValue`
    unchanged. -/
lemma parseResultJsonValue_of_lacksShape (intF floatF : List Str) (v : JValue)
    (hv : lacksMediaTrackShape v = true) :
    parseResultJsonValue intF floatF v = v := by
  cases v with
  | jnull => rfl
  | jstr s => rfl
  | jnum q => rfl
  | jnan => rfl
  | jbool b => rfl
  | jundef => rfl
  | jarr xs => rfl
  | jobj rfields =>
      cases hml : jlookup rfields mediaKey with
      | none => simp [parseResultJsonValue, hml, jsTruthy]
      | some m =>
          cases m with
          | jobj mfields =>
              simp only [lacksMediaTrackShape, hml, Option.getD_some] at hv
              cases htr : jlookup mfields trackKey with
              | none =>
                  simp [parseResultJsonValue, hml, htr, jsTruthy, jsTypeofObject]
              | some tv =>
                  rw [htr] at hv
                  cases tv with
                  | jarr xs => simp at hv
                  | jstr s =>
                      simp [parseResultJsonValue, hml, htr, jsTruthy, jsTypeofObject]
                  | jnum q =>
                      simp [parseResultJsonValue, hml, htr, jsTruthy, jsTypeofObject]
                  | jnan =>
                      simp [parseResultJsonValue, hml, htr, jsTruthy, jsTypeofObject]
                  | jbool b =>
                      simp [parseResultJsonValue, hml, htr, jsTruthy, jsTypeofObject]
                  | jnull =>
                      simp [parseResultJsonValue, hml, htr, jsTruthy, jsTypeofObject]
                  | jundef =>
                      simp [parseResultJsonValue, hml, htr, jsTruthy, jsTypeofObject]
                  | jobj f =>
                      simp [parseResultJsonValue, hml, htr, jsTruthy, jsTypeofObject]
          | jarr xs => simp [parseResultJsonValue, hml, jsTruthy, jsTypeofObject]
          | jstr s => simp [parseResultJsonValue, hml, jsTruthy, jsTypeofObject]
          | jnum q => simp [parseResultJsonValue, hml, jsTruthy, jsTypeofObject]
          | jnan => simp [parseResultJsonValue, hml, jsTruthy, jsTypeofObject]
          | jbool b => simp [parseResultJsonValue, hml, jsTruthy, jsTypeofObject]
          | jnull => simp [parseResultJsonValue, hml, jsTruthy, jsTypeofObject]
          | jundef => simp [parseResultJsonValue, hml, jsTruthy, jsTypeofObject]

/-- C8 (amended): when the input text is not well-formed the parse
    error propagates and the caller receives no value; when it parses
    but the value lacks the media/track shape (and is not `null`, whose
    property access throws), the parsed value is returned unchanged
    with no error signalled. -/
theorem parseResultJson_passthrough (intF floatF : List Str) (v : JValue)
    (hv : lacksMediaTrackShape v = true) (hnull : v ≠ .jnull) :
    parseResultJson intF floatF (some v) = .ok v ∧
    parseResultJson intF floatF none = .error () := by
  refine ⟨?_, rfl⟩
  have hval := parseResultJsonValue_of_lacksShape intF floatF v hv
  cases v with
  | jnull => exact absurd rfl hnull
  | jstr s => simpa [parseResultJson] using hval
  | jnum q => simpa [parseResultJson] using hval
  | jnan => simpa [parseResultJson] using hval
  | jbool b => simpa [parseResultJson] using hval
  | jundef => simpa [parseResultJson] using hval
  | jarr xs => simpa [parseResultJson] using hval
  | jobj rfields => simpa [parseResultJson] using hval

/-- Witness for `parseResultJson_passthrough`: the shape-lacking value
    `["x"]` passes through unchanged. -/
theorem parseResultJson_passthrough_witness :
    lacksMediaTrackShape (.jarr [.jstr "x".toList]) = true ∧
    parseResultJson [] [] (some (.jarr [.jstr "x".toList]))
      = .ok (.jarr [.jstr "x".toList]) :=
  ⟨rfl, (parseResultJson_passthrough [] [] (.jarr [.jstr "x".toList]) rfl
    (fun h => JValue.noConfusion h)).1⟩

/-! ### Theorems for claim C10 -/

/-- A verified prefix pins down the characters at each of its
    indices. -/
lemma strStartsWith_get : ∀ (p s : Str), strStartsWith s p = true →
    ∀ i, i < p.length → s.get? i = p.get? i := by
  intro p
  induction p with
  | nil =>
      intro s h i hi
      simp at hi
  | cons a ps ih =>
      intro s h i hi
      cases s with
      | nil => simp [strStartsWith] at h
      | cons b ss =>
          simp only [strStartsWith, Bool.and_eq_true, decide_eq_true_eq] at h
          obtain ⟨hab, hrec⟩ := h
          cases i with
          | zero => simp [hab]
          | succ j =>
              simp only [List.get?_cons_succ]
              exact ih ss hrec j (by simpa using hi)

/-- A successful anchored match starts with the literal regex prefix. -/
lemma matchDriveViewAt_startsWith (s fileId : Str)
    (h : matchDriveViewAt s = some fileId) :
    strStartsWith s drivePatternPre = true := by
  by_contra hsw
  unfold matchDriveViewAt at h
  rw [if_neg hsw] at h
  exact Option.noConfusion h

/-- The capture of a successful anchored match is the maximal class run
    after the literal prefix. -/
lemma matchDriveViewAt_id (s fileId : Str)
    (h : matchDriveViewAt s = some fileId) :
    fileId = (s.drop drivePatternPre.length).takeWhile driveIdChar := by
  unfold matchDriveViewAt at h
  by_cases h1 : strStartsWith s drivePatternPre = true
  · rw [if_pos h1] at h
    by_cases h2 : (s.drop drivePatternPre.length).takeWhile driveIdChar ≠ [] ∧
        strStartsWith ((s.drop drivePatternPre.length).dropWhile driveIdChar)
          drivePatternPost = true
    · rw [if_pos h2] at h
      exact (Option.some_inj.mp h).symm
    · rw [if_neg h2] at h
      exact Option.noConfusion h
  · rw [if_neg h1] at h
    exact Option.noConfusion h

/-- Every character of an extracted capture lies in the regex's
    character class. -/
lemma execDriveViewRegex_id_chars : ∀ (u fileId : Str),
    execDriveViewRegex u = some fileId → ∀ c ∈ fileId, driveIdChar c = true := by
  intro u
  induction u with
  | nil =>
      intro fileId h c hc
      rw [execDriveViewRegex] at h
      simp [matchDriveViewAt, drivePatternPre, strStartsWith] at h
  | cons a rest ih =>
      intro fileId h c hc
      rw [execDriveViewRegex] at h
      cases hmt : matchDriveViewAt (a :: rest) with
      | some fid =>
          rw [hmt] at h
          have hfid : fid = fileId := Option.some_inj.mp h
          subst hfid
          have hform := matchDriveViewAt_id _ _ hmt
          subst hform
          exact List.mem_takeWhile_imp hc
      | none =>
          rw [hmt] at h
          exact ih fileId h c hc

/-- If the anchored match fails at every suffix, the scanning `exec`
    finds nothing. -/
lemma execDriveViewRegex_eq_none (s : Str)
    (h : ∀ k, matchDriveViewAt (s.drop k) = none) :
    execDriveViewRegex s = none := by
  induction s with
  | nil =>
      have h0 := h 0
      rw [List.drop_zero] at h0
      rw [execDriveViewRegex, h0]
  | cons a rest ih =>
      have h0 := h 0
      rw [List.drop_zero] at h0
      rw [execDriveViewRegex, h0]
      exact ih (fun k => by
        have hk := h (k + 1)
        rwa [List.drop_succ_cons] at hk)

/-- In the rewritten URL the character `:` occurs only at index 5
    (inside `https:`): the capture consists of class characters, which
    exclude `:`, and neither fixed part has another colon. -/
lemma rewrite_colon_index (fileId : Str)
    (hid : ∀ c ∈ fileId, driveIdChar c = true) :
    ∀ i, (driveRewritePre ++ fileId ++ driveRewritePost).get? i = some ':' →
      i = 5 := by
  intro i h
  rw [List.append_assoc] at h
  have hlen : driveRewritePre.length = 49 := rfl
  by_cases hlt : i < 49
  · rw [List.get?_append (lt_of_lt_of_eq hlt hlen.symm)] at h
    interval_cases i <;> first | rfl | (exact absurd h (by decide))
  · push_neg at hlt
    rw [List.get?_append_right (le_of_eq_of_le hlen hlt)] at h
    have hmem := List.get?_mem h
    rcases List.mem_append.mp hmem with hm | hm
    · exact absurd (hid _ hm) (by decide)
    · exact absurd hm (by decide)

/-- The rewritten direct-download URL matches the view-page regex at no
    position: a match needs `:` at relative index 5 — forcing position
    0 — yet at index 14 the rewritten URL has `u` (of `usercontent`)
    where the pattern requires `g` (of `google`). -/
lemma matchDriveViewAt_rewrite_none (fileId : Str)
    (hid : ∀ c ∈ fileId, driveIdChar c = true) :
    ∀ k, matchDriveViewAt
      ((driveRewritePre ++ fileId ++ driveRewritePost).drop k) = none := by
  intro k
  cases hmt : matchDriveViewAt
      ((driveRewritePre ++ fileId ++ driveRewritePost).drop k) with
  | none => rfl
  | some fid =>
      exfalso
      have hsw := matchDriveViewAt_startsWith _ _ hmt
      have h5 := strStartsWith_get drivePatternPre _ hsw 5 (by decide)
      have h14 := strStartsWith_get drivePatternPre _ hsw 14 (by decide)
      rw [List.get?_drop] at h5 h14
      have hp5 : drivePatternPre.get? 5 = some ':' := rfl
      have hp14 : drivePatternPre.get? 14 = some 'g' := rfl
      rw [hp5] at h5
      rw [hp14] at h14
      have hk0 : k = 0 := by
        have := rewrite_colon_index fileId hid (k + 5) h5
        omega
      subst hk0
      rw [Nat.zero_add] at h14
      have hu : (driveRewritePre ++ fileId ++ driveRewritePost).get? 14
          = some 'u' := by
        have hlen : driveRewritePre.length = 49 := rfl
        rw [List.append_assoc,
          List.get?_append (lt_of_lt_of_eq (by norm_num : (14 : Nat) < 49) hlen.symm)]
        rfl
      rw [hu] at h14
      exact absurd h14 (by decide)

/-- The rewrite output never re-matches the regex. -/
lemma execDriveViewRegex_rewrite_none (fileId : Str)
    (hid : ∀ c ∈ fileId, driveIdChar c = true) :
    execDriveViewRegex (driveRewritePre ++ fileId ++ driveRewritePost) = none :=
  execDriveViewRegex_eq_none _ (matchDriveViewAt_rewrite_none fileId hid)

/-! ### Theorems for claim C9 -/

/-- Hex digit encoding and decoding are inverse below 16. -/
lemma hexVal_hexDigitChar (x : Nat) (h : x < 16) :
    hexVal (hexDigitChar x) = some x := by
  interval_cases x <;> decide

/-- Every Unicode scalar value is below `0x110000`. -/
lemma char_toNat_lt (c : Char) : c.toNat < 1114112 := by
  have h := c.valid
  simp only [UInt32.isValidChar, Nat.isValidChar] at h
  simp only [Char.toNat]
  rcases h with h | h <;> omega

/-- All UTF-8 bytes are below 256. -/
lemma utf8EncodeChar_lt (c : Char) : ∀ b ∈ utf8EncodeChar c, b < 256 := by
  intro b hb
  have hv := char_toNat_lt c
  unfold utf8EncodeChar at hb
  split_ifs at hb with h1 h2 h3 <;> simp at hb <;> omega

/-- Decoding a percent escape yields its byte. -/
lemma pctDecodeBytes_escape (b : Nat) (hb : b < 256) (rest : Str) :
    pctDecodeBytes (pctEscapeByte b ++ rest)
      = (fun bs => b :: bs) <$> pctDecodeBytes rest := by
  have h1 : hexVal (hexDigitChar (b / 16)) = some (b / 16) :=
    hexVal_hexDigitChar _ (by omega)
  have h2 : hexVal (hexDigitChar (b % 16)) = some (b % 16) :=
    hexVal_hexDigitChar _ (by omega)
  have hdm : 16 * (b / 16) + b % 16 = b := by omega
  simp only [pctEscapeByte, List.cons_append, List.nil_append]
  rw [pctDecodeBytes.eq_def]
  simp only [eq_self_iff_true, if_true, h1, h2, hdm]

/-- Decoding the percent escapes of a byte list prepends those bytes. -/
lemma pctDecodeBytes_bind_escape (bs : List Nat) (h : ∀ b ∈ bs, b < 256)
    (rest : Str) :
    pctDecodeBytes (bs.flatMap pctEscapeByte ++ rest)
      = (fun l => bs ++ l) <$> pctDecodeBytes rest := by
  induction bs with
  | nil =>
      simp only [List.flatMap_nil, List.nil_append]
      cases pctDecodeBytes rest <;> rfl
  | cons b bs ih =>
      rw [List.flatMap_cons, List.append_assoc,
        pctDecodeBytes_escape b (h b (List.mem_cons_self b bs)) _,
        ih (fun x hx => h x (List.mem_cons_of_mem b hx))]
      cases pctDecodeBytes rest <;> rfl

/-- Decoding a raw ASCII non-`%` character yields its code point. -/
lemma pctDecodeBytes_raw (c : Char) (h : c.toNat < 128) (hne : c ≠ '%')
    (rest : Str) :
    pctDecodeBytes (c :: rest) = (fun bs => c.toNat :: bs) <$> pctDecodeBytes rest := by
  rw [pctDecodeBytes.eq_def]
  simp only [hne, h, if_true, if_false]

/-- Manual unfolding equation for `utf8Decode` on a non-empty byte
    list (its automatic unfold theorem is not generable due to the
    nested tail matches). -/
lemma utf8Decode_cons_eq (b : Nat) (rest : List Nat) :
    utf8Decode (b :: rest) =
      (if b < 0x80 then (fun s => Char.ofNat b :: s) <$> utf8Decode rest
       else if b < 0xC0 then none
       else if b < 0xE0 then
         match rest with
         | b2 :: rest2 =>
             if 0x80 ≤ b2 ∧ b2 < 0xC0 then
               (fun s => Char.ofNat ((b - 0xC0) * 64 + (b2 - 0x80)) :: s) <$>
                 utf8Decode rest2
             else none
         | [] => none
       else if b < 0xF0 then
         match rest with
         | b2 :: b3 :: rest3 =>
             if (0x80 ≤ b2 ∧ b2 < 0xC0) ∧ (0x80 ≤ b3 ∧ b3 < 0xC0) then
               (fun s => Char.ofNat ((b - 0xE0) * 4096 + (b2 - 0x80) * 64 +
                 (b3 - 0x80)) :: s) <$> utf8Decode rest3
             else none
         | _ => none
       else if b < 0xF8 then
         match rest with
         | b2 :: b3 :: b4 :: rest4 =>
             if (0x80 ≤ b2 ∧ b2 < 0xC0) ∧ (0x80 ≤ b3 ∧ b3 < 0xC0) ∧
                 (0x80 ≤ b4 ∧ b4 < 0xC0) then
               (fun s => Char.ofNat ((b - 0xF0) * 262144 + (b2 - 0x80) * 4096 +
                 (b3 - 0x80) * 64 + (b4 - 0x80)) :: s) <$> utf8Decode rest4
             else none
         | _ => none
       else none) := by
  cases rest with
  | nil => rfl
  | cons b2 r2 =>
      cases r2 with
      | nil => rfl
      | cons b3 r3 =>
          cases r3 with
          | nil => rfl
          | cons b4 r4 => rfl

/-- One-character UTF-8 round trip, in front of any byte tail. -/
lemma utf8Decode_encodeChar (c : Char) (rest : List Nat) :
    utf8Decode (utf8EncodeChar c ++ rest)
      = (fun s => c :: s) <$> utf8Decode rest := by
  have hv : c.toNat < 1114112 := char_toNat_lt c
  unfold utf8EncodeChar
  split_ifs with h1 h2 h3
  · simp only [List.cons_append, List.nil_append]
    rw [utf8Decode_cons_eq]
    simp only [h1, if_true]
    rw [Char.ofNat_toNat]
  · simp only [List.cons_append, List.nil_append]
    rw [utf8Decode_cons_eq]
    have e1 : ¬ (0xC0 + c.toNat / 64 < 0x80) := by omega
    have e2 : ¬ (0xC0 + c.toNat / 64 < 0xC0) := by omega
    have e3 : 0xC0 + c.toNat / 64 < 0xE0 := by omega
    have e4 : 0x80 ≤ 0x80 + c.toNat % 64 := by omega
    have e5 : 0x80 + c.toNat % 64 < 0xC0 := by omega
    have hval : (0xC0 + c.toNat / 64 - 0xC0) * 64 + (0x80 + c.toNat % 64 - 0x80)
        = c.toNat := by omega
    simp only [e1, e2, e3, e4, e5, and_self, if_true, if_false, hval]
    rw [Char.ofNat_toNat]
  · simp only [List.cons_append, List.nil_append]
    rw [utf8Decode_cons_eq]
    have e1 : ¬ (0xE0 + c.toNat / 4096 < 0x80) := by omega
    have e2 : ¬ (0xE0 + c.toNat / 4096 < 0xC0) := by omega
    have e3 : ¬ (0xE0 + c.toNat / 4096 < 0xE0) := by omega
    have e4 : 0xE0 + c.toNat / 4096 < 0xF0 := by omega
    have e5 : 0x80 ≤ 0x80 + c.toNat / 64 % 64 := by omega
    have e6 : 0x80 + c.toNat / 64 % 64 < 0xC0 := by omega
    have e7 : 0x80 ≤ 0x80 + c.toNat % 64 := by omega
    have e8 : 0x80 + c.toNat % 64 < 0xC0 := by omega
    have hval : (0xE0 + c.toNat / 4096 - 0xE0) * 4096 +
        (0x80 + c.toNat / 64 % 64 - 0x80) * 64 + (0x80 + c.toNat % 64 - 0x80)
        = c.toNat := by omega
    simp only [e1, e2, e3, e4, e5, e6, e7, e8, and_self, if_true, if_false, hval]
    rw [Char.ofNat_toNat]
  · simp only [List.cons_append, List.nil_append]
    rw [utf8Decode_cons_eq]
    have e1 : ¬ (0xF0 + c.toNat / 262144 < 0x80) := by omega
    have e2 : ¬ (0xF0 + c.toNat / 262144 < 0xC0) := by omega
    have e3 : ¬ (0xF0 + c.toNat / 262144 < 0xE0) := by omega
    have e4 : ¬ (0xF0 + c.toNat / 262144 < 0xF0) := by omega
    have e5 : 0xF0 + c.toNat / 262144 < 0xF8 := by omega
    have e6 : 0x80 ≤ 0x80 + c.toNat / 4096 % 64 := by omega
    have e7 : 0x80 + c.toNat / 4096 % 64 < 0xC0 := by omega
    have e8 : 0x80 ≤ 0x80 + c.toNat / 64 % 64 := by omega
    have e9 : 0x80 + c.toNat / 64 % 64 < 0xC0 := by omega
    have e10 : 0x80 ≤ 0x80 + c.toNat % 64 := by omega
    have e11 : 0x80 + c.toNat % 64 < 0xC0 := by omega
    have hval : (0xF0 + c.toNat / 262144 - 0xF0) * 262144 +
        (0x80 + c.toNat / 4096 % 64 - 0x80) * 4096 +
        (0x80 + c.toNat / 64 % 64 - 0x80) * 64 + (0x80 + c.toNat % 64 - 0x80)
        = c.toNat := by omega
    simp only [e1, e2, e3, e4, e5, e6, e7, e8, e9, e10, e11, and_self,
      if_true, if_false, hval]
    rw [Char.ofNat_toNat]

/-- UTF-8 round trip for whole strings. -/
lemma utf8Decode_bind_encode (f : Str) :
    utf8Decode (f.flatMap utf8EncodeChar) = some f := by
  induction f with
  | nil => rfl
  | cons c f ih =>
      rw [List.flatMap_cons, utf8Decode_encodeChar, ih]
      rfl

/-- Unreserved characters are ASCII and are not `%`, `;` or `"`. -/
lemma uriUnreserved_facts (c : Char) (h : uriUnreserved c = true) :
    c.toNat < 128 ∧ c ≠ '%' ∧ c.toNat ≠ 59 ∧ c.toNat ≠ 34 := by
  simp only [uriUnreserved, decide_eq_true_eq] at h
  refine ⟨by omega, ?_, by omega, by omega⟩
  intro he
  subst he
  simp at h

/-- Percent-decoding inverts `encodeURIComponent`, prepending the
    filename's UTF-8 bytes. -/
lemma pctDecodeBytes_encodeURI (f : Str) (rest : Str) :
    pctDecodeBytes (encodeURIComponent f ++ rest)
      = (fun bs => f.flatMap utf8EncodeChar ++ bs) <$> pctDecodeBytes rest := by
  induction f with
  | nil =>
      simp only [encodeURIComponent, List.flatMap_nil, List.nil_append]
      cases pctDecodeBytes rest <;> rfl
  | cons c f ih =>
      rw [encodeURIComponent, List.flatMap_cons, List.append_assoc]
      by_cases hu : uriUnreserved c = true
      · obtain ⟨hlt, hpc, _, _⟩ := uriUnreserved_facts c hu
        rw [if_pos hu]
        rw [List.cons_append, List.nil_append, pctDecodeBytes_raw c hlt hpc, ih]
        have henc : utf8EncodeChar c = [c.toNat] := by
          unfold utf8EncodeChar
          rw [if_pos (by omega)]
        rw [henc]
        cases pctDecodeBytes rest <;> rfl
      · rw [if_neg hu]
        rw [pctDecodeBytes_bind_escape _ (utf8EncodeChar_lt c) _, ih]
        cases pctDecodeBytes rest <;> simp [List.append_assoc]

/-- Any list is a prefix of itself extended. -/
lemma strStartsWith_nil (s : Str) : strStartsWith s [] = true := by
  cases s <;> rfl

lemma strStartsWith_prefix_append (p x : Str) : strStartsWith (p ++ x) p = true := by
  induction p with
  | nil => simp [strStartsWith_nil]
  | cons a q ih => simp [strStartsWith, ih]

/-- Step: outside quotes, an ordinary character is accumulated. -/
lemma splitParamsAux_plain (c : Char) (rest acc : Str)
    (h1 : c ≠ ';') (h2 : c ≠ '"') :
    splitParamsAux (c :: rest) false acc = splitParamsAux rest false (c :: acc) := by
  rw [splitParamsAux.eq_def]
  simp only [Bool.false_eq_true, if_false, h1, h2, ite_false]

/-- Step: outside quotes, `;` ends the current segment. -/
lemma splitParamsAux_semi (rest acc : Str) :
    splitParamsAux (';' :: rest) false acc
      = acc.reverse :: splitParamsAux rest false [] := by
  rw [splitParamsAux.eq_def]
  simp only [Bool.false_eq_true, if_false, eq_self_iff_true, if_true]

/-- Step: outside quotes, `"` opens a quoted string. -/
lemma splitParamsAux_openQuote (rest acc : Str) :
    splitParamsAux ('"' :: rest) false acc
      = splitParamsAux rest true ('"' :: acc) := by
  rw [splitParamsAux.eq_def]
  have hns : ¬ (('"' : Char) = ';') := by decide
  simp only [Bool.false_eq_true, if_false, hns, eq_self_iff_true, if_true]

/-- Step: inside quotes, a quoted pair is consumed whole. -/
lemma splitParamsAux_qpair (c2 : Char) (rest acc : Str) :
    splitParamsAux ('\\' :: c2 :: rest) true acc
      = splitParamsAux rest true (c2 :: '\\' :: acc) := by
  rw [splitParamsAux.eq_def]
  simp only [eq_self_iff_true, if_true]

/-- Step: inside quotes, an ordinary character is accumulated. -/
lemma splitParamsAux_qplain (c : Char) (rest acc : Str)
    (h1 : c ≠ '\\') (h2 : c ≠ '"') :
    splitParamsAux (c :: rest) true acc = splitParamsAux rest true (c :: acc) := by
  rw [splitParamsAux.eq_def]
  simp only [h1, h2, eq_self_iff_true, if_true, ite_false]

/-- Step: inside quotes, `"` closes the quoted string. -/
lemma splitParamsAux_closeQuote (rest acc : Str) :
    splitParamsAux ('"' :: rest) true acc
      = splitParamsAux rest false ('"' :: acc) := by
  rw [splitParamsAux.eq_def]
  have hnb : ¬ (('"' : Char) = '\\') := by decide
  simp only [hnb, eq_self_iff_true, if_true, ite_false]

/-- A separator-free, quote-free span is accumulated verbatim. -/
lemma splitParamsAux_no_special (s : Str) (h : ∀ c ∈ s, c ≠ ';' ∧ c ≠ '"') :
    ∀ (rest acc : Str),
      splitParamsAux (s ++ rest) false acc
        = splitParamsAux rest false (s.reverse ++ acc) := by
  induction s with
  | nil => intro rest acc; simp
  | cons c s ih =>
      intro rest acc
      obtain ⟨hc1, hc2⟩ := h c (List.mem_cons_self c s)
      rw [List.cons_append, splitParamsAux_plain c _ _ hc1 hc2,
        ih (fun x hx => h x (List.mem_cons_of_mem c hx))]
      simp [List.append_assoc]

/-- Inside quotes, a backslash-free filename's escaped form followed by
    the closing quote is consumed back to the unquoted state. -/
lemma splitParamsAux_quoted (f : Str) (hb : '\\' ∉ f) :
    ∀ (rest acc : Str),
      splitParamsAux (escapeQuotes f ++ '"' :: rest) true acc
        = splitParamsAux rest false ('"' :: ((escapeQuotes f).reverse ++ acc)) := by
  induction f with
  | nil =>
      intro rest acc
      simp [escapeQuotes, splitParamsAux_closeQuote]
  | cons c f ih =>
      intro rest acc
      have hcb : c ≠ '\\' := fun he => hb (he ▸ List.mem_cons_self c f)
      have hbf : '\\' ∉ f := fun hx => hb (List.mem_cons_of_mem c hx)
      by_cases hc : c = '"'
      · subst hc
        rw [escapeQuotes, if_pos rfl, List.cons_append, List.cons_append,
          splitParamsAux_qpair, ih hbf]
        simp [List.append_assoc]
      · rw [escapeQuotes, if_neg hc, List.cons_append,
          splitParamsAux_qplain c _ _ hcb hc, ih hbf]
        simp [List.append_assoc]

/-- A trailing separator-free span closes the final segment. -/
lemma splitParamsAux_final (s : Str) (h : ∀ c ∈ s, c ≠ ';' ∧ c ≠ '"')
    (acc : Str) :
    splitParamsAux s false acc = [acc.reverse ++ s] := by
  have h0 := splitParamsAux_no_special s h [] acc
  rw [List.append_nil] at h0
  rw [h0, splitParamsAux.eq_def]
  simp

/-- Characters emitted by `encodeURIComponent` are never `;` or `"`. -/
lemma encodeURIComponent_no_special (f : Str) :
    ∀ c ∈ encodeURIComponent f, c ≠ ';' ∧ c ≠ '"' := by
  have hhex : ∀ n : Nat, hexDigitChar n ≠ ';' ∧ hexDigitChar n ≠ '"' := by
    intro n
    by_cases hn : n < 16
    · interval_cases n <;> exact (by decide)
    · unfold hexDigitChar
      rw [List.getD_eq_default _ _ (by simp; omega)]
      decide
  induction f with
  | nil => intro c hc; simp [encodeURIComponent] at hc
  | cons a f ih =>
      intro c hc
      rw [encodeURIComponent] at hc
      rcases List.mem_append.mp hc with hm | hm
      · by_cases hu : uriUnreserved a = true
        · rw [if_pos hu] at hm
          obtain ⟨_, _, hne59, hne34⟩ := uriUnreserved_facts a hu
          rcases List.mem_singleton.mp hm with rfl
          constructor
          · intro he; exact hne59 (by rw [he]; decide)
          · intro he; exact hne34 (by rw [he]; decide)
        · rw [if_neg hu] at hm
          rcases List.mem_flatMap.mp hm with ⟨b, _, hcb⟩
          simp only [pctEscapeByte, List.mem_cons, List.mem_singleton,
            List.not_mem_nil, or_false] at hcb
          rcases hcb with rfl | rfl | rfl
          · exact (by decide)
          · exact hhex _
          · exact hhex _
      · exact ih c hm

/-- A string equal to `p ++ t` starts with `p`. -/
lemma strStartsWith_of_eq_append (s p t : Str) (h : s = p ++ t) :
    strStartsWith s p = true := by
  rw [h]; exact strStartsWith_prefix_append p t

/-- The generated header splits into exactly three parameters: the
    disposition token, the quoted `filename` parameter and the
    `filename*` parameter (for backslash-free filenames). -/
lemma splitParams_contentDisposition (range : Option Str) (f : Str)
    (hb : '\\' ∉ f) :
    splitParams (contentDispositionHeader range f)
      = [(if jsTruthyOptStr range then "inline".toList else "attachment".toList),
         " filename=".toList ++ '"' :: (escapeQuotes f ++ ['"']),
         " filename*=UTF-8''".toList ++ encodeURIComponent f] := by
  have hdisp : ∀ c ∈ (if jsTruthyOptStr range then "inline".toList
      else "attachment".toList), c ≠ ';' ∧ c ≠ '"' := by
    split_ifs <;> decide
  have hCc : ∀ c ∈ " filename*=UTF-8''".toList, c ≠ ';' ∧ c ≠ '"' := by decide
  have hC : ∀ c ∈ " filename*=UTF-8''".toList ++ encodeURIComponent f,
      c ≠ ';' ∧ c ≠ '"' := by
    intro c hc
    rcases List.mem_append.mp hc with h | h
    · exact hCc c h
    · exact encodeURIComponent_no_special f c h
  unfold contentDispositionHeader splitParams
  have hA : "; filename=\"".toList = ';' :: (" filename=".toList ++ ['"']) := rfl
  have hB : "\"; filename*=UTF-8''".toList
      = '"' :: ';' :: " filename*=UTF-8''".toList := rfl
  rw [hA, hB]
  simp only [List.append_assoc, List.cons_append, List.singleton_append,
    List.nil_append]
  rw [splitParamsAux_no_special _ hdisp, splitParamsAux_semi,
    splitParamsAux_no_special _ (by decide), splitParamsAux_openQuote,
    splitParamsAux_quoted f hb, splitParamsAux_semi,
    splitParamsAux_final _ hC]
  simp [List.reverse_append, List.append_assoc]

/-- On the three split segments, the preferred-parameter search finds
    the `filename*` value. -/
lemma findExtParam_of_split (range : Option Str) (f : Str) :
    findExtParam
      [(if jsTruthyOptStr range then "inline".toList else "attachment".toList),
       " filename=".toList ++ '"' :: (escapeQuotes f ++ ['"']),
       " filename*=UTF-8''".toList ++ encodeURIComponent f]
      = some ("UTF-8''".toList ++ encodeURIComponent f) := by
  have he3 : (" filename*=UTF-8''".toList ++ encodeURIComponent f).dropWhile
      (fun c => c = ' ')
      = "filename*=".toList ++ ("UTF-8''".toList ++ encodeURIComponent f) := by
    rw [show " filename*=UTF-8''".toList ++ encodeURIComponent f
      = ' ' :: ("filename*=".toList ++ ("UTF-8''".toList ++ encodeURIComponent f))
      by simp]
    rfl
  have c1 : strStartsWith
      ((if jsTruthyOptStr range then "inline".toList
        else "attachment".toList).dropWhile (fun c => c = ' '))
      "filename*=".toList = false := by
    split_ifs <;> decide
  have c2 : strStartsWith
      ((" filename=".toList ++ '"' :: (escapeQuotes f ++ ['"'])).dropWhile
        (fun c => c = ' '))
      "filename*=".toList = false := by
    have he : (" filename=".toList ++ '"' :: (escapeQuotes f ++ ['"'])).dropWhile
        (fun c => c = ' ')
        = "filename=".toList ++ '"' :: (escapeQuotes f ++ ['"']) := rfl
    rw [he]
    by_contra hsw
    rw [Bool.not_eq_false] at hsw
    have h8 := strStartsWith_get "filename*=".toList _ hsw 8 (by decide)
    have hl : ("filename=".toList ++ '"' :: (escapeQuotes f ++ ['"'])).get? 8
        = some '=' := by
      rw [List.get?_append (by decide)]
      rfl
    rw [hl] at h8
    exact absurd (Option.some_inj.mp h8) (by decide)
  have c3 : strStartsWith
      ((" filename*=UTF-8''".toList ++ encodeURIComponent f).dropWhile
        (fun c => c = ' '))
      "filename*=".toList = true := by
    rw [he3]
    exact strStartsWith_prefix_append _ _
  simp only [findExtParam, c1, c2, c3, Bool.false_eq_true, if_false, if_true,
    Option.some_inj]
  rw [he3, show (10 : Nat) = ("filename*=".toList).length from rfl,
    List.drop_left]

/-- Counterexample for C9 as stated: for the filename `a\` (one
    backslash), the code's quote-escaping leaves the backslash alone, so
    the generated quoted string never terminates — the `\"` reads as a
    quoted pair and the rest of the header is swallowed into it — and a
    conforming parser cannot recover the filename (it finds no
    `filename*` parameter at all). -/
theorem contentDisposition_backslash_counterexample :
    rfc6266PreferredFilename (contentDispositionHeader none ['a', '\\']) = none ∧
    ¬ rfc6266PreferredFilename (contentDispositionHeader none ['a', '\\'])
        = some ['a', '\\'] := by
  decide

/-- C9 (amended): for every filename containing no backslash, the proxy
    route's `Content-Disposition` value starts with `inline; ` when the
    inbound request carried a (non-empty) `Range` header and with
    `attachment; ` otherwise, carries the filename in both the
    quoted-ASCII and the RFC 5987 extended form, and a conforming
    RFC 6266 parser — preferring the `filename*` ext-value — recovers
    the original filename exactly; in particular for `My "Video".mp4`. -/
theorem contentDisposition_roundTrip (f : Str) (range : Option Str)
    (hb : '\\' ∉ f) :
    rfc6266PreferredFilename (contentDispositionHeader range f) = some f ∧
    (jsTruthyOptStr range = true →
      strStartsWith (contentDispositionHeader range f) "inline; ".toList = true) ∧
    (jsTruthyOptStr range = false →
      strStartsWith (contentDispositionHeader range f)
        "attachment; ".toList = true) ∧
    rfc6266PreferredFilename
        (contentDispositionHeader none "My \"Video\".mp4".toList)
      = some "My \"Video\".mp4".toList := by
  refine ⟨?_, ?_, ?_, by decide⟩
  · unfold rfc6266PreferredFilename
    rw [splitParams_contentDisposition range f hb, findExtParam_of_split range f]
    have hpd : pctDecodeBytes (encodeURIComponent f)
        = some (f.flatMap utf8EncodeChar) := by
      have h1 := pctDecodeBytes_encodeURI f []
      rw [List.append_nil] at h1
      rw [show pctDecodeBytes ([] : Str) = some [] from rfl] at h1
      simpa using h1
    simp only [strStartsWith_prefix_append, if_true,
      show (7 : Nat) = ("UTF-8''".toList).length from rfl, List.drop_left, hpd]
    exact utf8Decode_bind_encode f
  · intro ht
    refine strStartsWith_of_eq_append _ _ ("filename=\"".toList ++
      (escapeQuotes f ++ ("\"; filename*=UTF-8''".toList ++
        encodeURIComponent f))) ?_
    unfold contentDispositionHeader
    rw [if_pos ht]
    simp [List.append_assoc]
  · intro ht
    refine strStartsWith_of_eq_append _ _ ("filename=\"".toList ++
      (escapeQuotes f ++ ("\"; filename*=UTF-8''".toList ++
        encodeURIComponent f))) ?_
    unfold contentDispositionHeader
    rw [if_neg (by rw [ht]; exact Bool.false_ne_true)]
    simp [List.append_assoc]

/-- Witness for `contentDisposition_roundTrip`: instantiation at the
    filename `My "Video".mp4` with a Range header present. -/
theorem contentDisposition_roundTrip_witness :
    ('\\' ∉ "My \"Video\".mp4".toList) ∧
    rfc6266PreferredFilename
        (contentDispositionHeader (some "bytes=0-".toList)
          "My \"Video\".mp4".toList)
      = some "My \"Video\".mp4".toList ∧
    strStartsWith
        (contentDispositionHeader (some "bytes=0-".toList)
          "My \"Video\".mp4".toList)
        "inline; ".toList = true :=
  ⟨by decide,
   (contentDisposition_roundTrip "My \"Video\".mp4".toList
     (some "bytes=0-".toList) (by decide)).1,
   (contentDisposition_roundTrip "My \"Video\".mp4".toList
     (some "bytes=0-".toList) (by decide)).2.1 (by decide)⟩

/-- C10: the cloud-drive share-link rewrite is idempotent on its `url`
    field — applying `resolveGoogleDriveUrl` to the `url` of its own
    result returns that same `url` unchanged, for every input string. -/
theorem resolveGoogleDriveUrl_idempotent (u : Str) :
    (resolveGoogleDriveUrl (resolveGoogleDriveUrl u).url).url
      = (resolveGoogleDriveUrl u).url := by
  cases hex : execDriveViewRegex u with
  | some fileId =>
      have hid := execDriveViewRegex_id_chars u fileId hex
      have hnone := execDriveViewRegex_rewrite_none fileId hid
      simp only [resolveGoogleDriveUrl, hex, hnone]
      split_ifs <;> rfl
  | none =>
      by_cases hc : strContainsSub u usercontentNeedle = true
      · simp only [resolveGoogleDriveUrl, hex, if_pos hc]
      · simp only [resolveGoogleDriveUrl, hex, if_neg hc]

end FastLink
